import Mathlib

/-!
Verification development for the `minecraft-audio-viz` DJ client core
(`src/dj_client/src-tauri/src`).  The Rust sources are shallowly embedded:

* `f32`/`f64` arithmetic is modelled by exact rational arithmetic (`ℚ`);
  every concrete input evaluated in a theorem below is chosen so that the
  floating-point computation in the source is exact at that input, so the
  rational model agrees with the compiled program there.
* Wall-clock reads (`Instant::elapsed`) become an explicit `now : ℚ`
  argument.
* The external numeric kernels that the crate takes from libraries
  (`rustfft`'s FFT plus windowing and complex norm, `f32::sqrt`,
  `f32::exp`) are abstracted into an `Ops` record; theorems that depend
  on a property of such a kernel (for example, that the magnitude
  spectrum of the zero signal is zero) take that property as an explicit
  hypothesis.
* Stateful methods become explicit state-passing functions on structures
  whose fields mirror the Rust structs field by field.
-/

/-! ## Rational models of Rust float primitives -/

/-- Kernel-computable floor of a rational: `⌊q⌋` (theorem `ratFloor_eq`). -/
def ratFloor (q : ℚ) : ℤ :=
  q.num / q.den

/-- Kernel-computable ceiling of a rational: `⌈q⌉` (theorem `ratCeil_eq`). -/
def ratCeil (q : ℚ) : ℤ :=
  -ratFloor (-q)

/-- Rust `as i16`-style float-to-int conversion truncates toward zero.
For `q ≥ 0` this is `⌊q⌋`, otherwise `⌈q⌉`. -/
def ratTrunc (q : ℚ) : ℤ :=
  if 0 ≤ q then ratFloor q else ratCeil q

/-- Rust `f32::round` / `f64::round`: round half away from zero. -/
def ratRound (q : ℚ) : ℤ :=
  if 0 ≤ q then ratFloor (q + 1/2) else -ratFloor (-q + 1/2)

/-- Rust `f64::fract`: `self - self.trunc()` (negative for negative input). -/
def ratFract (q : ℚ) : ℚ :=
  q - ratTrunc q

/-- Rust `f32::clamp(lo, hi)` for `lo ≤ hi`. -/
def ratClamp (q lo hi : ℚ) : ℚ :=
  max lo (min q hi)

/-- Exact rational square root helper: exact whenever the numerator and
denominator of the reduced fraction are perfect squares (in particular
`ratSqrt 0 = 0`).  Used to instantiate the abstract `sqrt` kernel at
inputs where the computation is exact. -/
def ratSqrt (q : ℚ) : ℚ :=
  (Nat.sqrt q.num.toNat : ℚ) / (Nat.sqrt q.den : ℚ)

/-! ## C5 — bridge reconnection backoff (`src/lib.rs`, `run_bridge`)

`const MAX_RECONNECT_ATTEMPTS: u32 = 10;`
`const MAX_RECONNECT_DELAY_SECS: u64 = 30;`
After a torn-down session the bridge increments `reconnect_count`; if it
now exceeds `MAX_RECONNECT_ATTEMPTS` it stops with the error
`"Connection lost (max retries reached)"`, otherwise it sleeps
`min(1u64 << (reconnect_count - 1), MAX_RECONNECT_DELAY_SECS)` seconds. -/

def MAX_RECONNECT_ATTEMPTS : ℕ := 10

def MAX_RECONNECT_DELAY_SECS : ℕ := 30

/-- `1u64 << n` with 64-bit wraparound. -/
def u64Shl1 (n : ℕ) : ℕ :=
  (1 <<< (n % 64)) % 2 ^ 64

/-- Outcome of one pass through the reconnect tail of the `'reconnect` loop. -/
inductive ReconnectAction where
  | retryAfter (delaySecs : ℕ) : ReconnectAction
  | giveUp (error : String) : ReconnectAction
deriving DecidableEq, Repr

/-- One execution of the reconnect tail: increments the counter, then either
gives up or computes the backoff delay.  Returns the new counter and action. -/
def reconnectStep (reconnect_count : ℕ) : ℕ × ReconnectAction :=
  let rc := reconnect_count + 1
  if MAX_RECONNECT_ATTEMPTS < rc then
    (rc, .giveUp "Connection lost (max retries reached)")
  else
    (rc, .retryAfter (min (u64Shl1 (rc - 1)) MAX_RECONNECT_DELAY_SECS))

/-- The list of actions produced by `k` consecutive failing passes starting
from counter value `c` (every reconnect attempt fails, so the counter is
never reset to 0). -/
def reconnectTrace : ℕ → ℕ → List ReconnectAction
  | _, 0 => []
  | c, k + 1 =>
    let s := reconnectStep c
    s.2 :: reconnectTrace s.1 k

/-! ## C9 — WebSocket scheme selection
(`src/lib.rs::is_local_host`, `src/protocol/client.rs::DjClient::connect`)

`host.parse::<Ipv4Addr>()` either yields four octets or fails; the model
therefore takes a host that is either an unparsable hostname string or a
parsed IPv4 quadruple. -/

/-- A host as seen by `is_local_host`: either a hostname that does not parse
as an IPv4 address, or a parsed IPv4 address given by its four octets. -/
inductive Host where
  | name (s : String) : Host
  | ipv4 (a b c d : ℕ) : Host
deriving DecidableEq, Repr

/-- `is_local_host` from `src/lib.rs`: `localhost`, loopback 127/8, 10/8,
172.16/12 and 192.168/16 are local. -/
def is_local_host : Host → Bool
  | .name s => s = "localhost"
  | .ipv4 a b _ _ =>
    a = 127 ∨ a = 10 ∨ (a = 172 ∧ 16 ≤ b ∧ b ≤ 31) ∨ (a = 192 ∧ b = 168)

/-- Scheme selection in `DjClient::connect`. -/
def connectScheme (h : Host) : String :=
  if is_local_host h then "ws" else "wss"

/-! ## C3 / C10 — circular audio buffer (`src/audio/capture.rs::AudioBuffer`) -/

structure AudioBuffer where
  samples : List ℚ
  write_pos : ℕ
  capacity : ℕ
deriving Repr

/-- `AudioBuffer::new(capacity)`. -/
def AudioBuffer.new (capacity : ℕ) : AudioBuffer :=
  { samples := List.replicate capacity 0, write_pos := 0, capacity := capacity }

/-- The body of the `push_samples` loop for a single sample. -/
def AudioBuffer.push1 (b : AudioBuffer) (x : ℚ) : AudioBuffer :=
  { b with
    samples := b.samples.set b.write_pos x
    write_pos := (b.write_pos + 1) % b.capacity }

/-- `AudioBuffer::push_samples`. -/
def AudioBuffer.push_samples (b : AudioBuffer) (data : List ℚ) : AudioBuffer :=
  data.foldl AudioBuffer.push1 b

/-- The start index computed in `get_latest` (after `count` was capped). -/
def AudioBuffer.startIdx (b : AudioBuffer) (count : ℕ) : ℕ :=
  if count ≤ b.write_pos then b.write_pos - count
  else b.capacity - (count - b.write_pos)

/-- The physical index read for output element `i` in `get_latest`. -/
def AudioBuffer.readIdx (b : AudioBuffer) (count i : ℕ) : ℕ :=
  (b.startIdx count + i) % b.capacity

/-- `AudioBuffer::get_latest`.  The Rust code indexes `self.samples[idx]`;
under the structural invariant `samples.length = capacity` every index is in
bounds (theorem `C10_get_latest_total`), so the `getD` default is inert. -/
def AudioBuffer.get_latest (b : AudioBuffer) (count : ℕ) : List ℚ :=
  let count := min count b.capacity
  (List.range count).map fun i => b.samples.getD (b.readIdx count i) 0

/-- Pushing a list of sample blocks in order (the history of `push_samples`
calls). -/
def AudioBuffer.pushAll (b : AudioBuffer) (blocks : List (List ℚ)) : AudioBuffer :=
  blocks.foldl AudioBuffer.push_samples b

/-- The last `n` elements of a list, in order: this is what the claim means
by "the last n elements of the concatenation of all samples pushed so far".
Stated from the spec for comparison with the implementation. -/
def lastN (n : ℕ) (l : List ℚ) : List ℚ :=
  l.drop (l.length - n)

/-! ## C4 / C8 — voice streamer (`src/voice.rs`) -/

def VOICE_FRAME_SAMPLES : ℕ := 960

def MAX_QUEUED_FRAMES : ℕ := 50

def VOICE_SAMPLE_RATE : ℕ := 48000

/-- The i16 conversion applied to each resampled sample in
`VoiceStreamer::push_samples`:
`let clamped = sample.clamp(-1.0, 1.0); let i16_val = (clamped * 32767.0) as i16;`
(a Rust float-to-int `as` cast truncates toward zero). -/
def convert_sample (s : ℚ) : ℤ :=
  ratTrunc (ratClamp s (-1) 1 * 32767)

/-- The conversion the spec describes: `round(clamp(s, −1, 1) · 32767)`.
Stated from the spec for comparison with the implementation. -/
def convert_sample_spec (s : ℚ) : ℤ :=
  ratRound (ratClamp s (-1) 1 * 32767)

/-- `resample` from `src/voice.rs`: linear-interpolation resampler. -/
def resample (input : List ℚ) (from_rate to_rate : ℕ) : List ℚ :=
  if input = [] then []
  else if from_rate = to_rate then input
  else
    let ratio : ℚ := (from_rate : ℚ) / (to_rate : ℚ)
    let output_len : ℕ := (ratFloor ((input.length : ℚ) / ratio)).toNat
    (List.range output_len).map fun i =>
      let src_pos : ℚ := (i : ℚ) * ratio
      let src_idx : ℕ := (ratFloor src_pos).toNat
      let frac : ℚ := src_pos - (src_idx : ℚ)
      if src_idx + 1 < input.length then
        input.getD src_idx 0 * (1 - frac) + input.getD (src_idx + 1) 0 * frac
      else if src_idx < input.length then
        input.getD src_idx 0
      else 0

/-- Mutable state behind the `VoiceStreamer` mutex, plus the enabled flag.
Queued frames are kept as the i16 sample vectors handed to the encoder; the
Opus/base64 encoding applied by the external crates is injected as the
`encode` parameter of `voicePush` and does not affect queue discipline. -/
structure VoiceState where
  enabled : Bool
  residual : List ℚ
  frame_buffer : List ℤ
  frames : List String
deriving Repr

def VoiceState.new : VoiceState :=
  { enabled := false, residual := [], frame_buffer := [], frames := [] }

/-- `VoiceStreamer::set_enabled`: disabling clears all buffered data. -/
def VoiceState.set_enabled (st : VoiceState) (e : Bool) : VoiceState :=
  if e then { st with enabled := true }
  else { enabled := false, residual := [], frame_buffer := [], frames := [] }

/-- Enqueue one encoded frame, dropping the oldest when the queue already
holds `MAX_QUEUED_FRAMES` entries (`if inner.frames.len() >= MAX_QUEUED_FRAMES
{ inner.frames.pop_front(); } inner.frames.push_back(encoded);`). -/
def voiceEnqueue (q : List String) (x : String) : List String :=
  (if MAX_QUEUED_FRAMES ≤ q.length then q.tail else q) ++ [x]

/-- The `while inner.frame_buffer.len() >= VOICE_FRAME_SAMPLES` loop of
`push_samples`, written with a fuel argument so that it reduces by
structural recursion; `fuel = frame_buffer.length` always suffices because
each iteration removes 960 samples. -/
def voiceExtract (encode : List ℤ → String) :
    ℕ → List ℤ → List String → List ℤ × List String
  | 0, fb, q => (fb, q)
  | fuel + 1, fb, q =>
    if VOICE_FRAME_SAMPLES ≤ fb.length then
      voiceExtract encode fuel (fb.drop VOICE_FRAME_SAMPLES)
        (voiceEnqueue q (encode (fb.take VOICE_FRAME_SAMPLES)))
    else (fb, q)

/-- Rust `slice::chunks(n)` for `n > 0`: consecutive chunks of size `n`,
the last one possibly shorter.  Written with a fuel argument (structural
recursion); `fuel = data.length` always suffices since each step consumes
`n ≥ 1` elements. -/
def listChunks (n : ℕ) : ℕ → List ℚ → List (List ℚ)
  | 0, _ => []
  | _, [] => []
  | fuel + 1, xs => xs.take n :: listChunks n fuel (xs.drop n)

/-- Mono downmix by arithmetic mean over `channels`-sized chunks
(`data.chunks(channels).map(|frame| frame.iter().sum() / channels)`). -/
def downmix (data : List ℚ) (channels : ℕ) : List ℚ :=
  (listChunks channels data.length data).map fun chunk => chunk.sum / (channels : ℚ)

/-- `VoiceStreamer::push_samples`.  `encode` stands for the external
Opus-or-PCM plus base64 encoder; `source_rate` is the streamer's
`source_sample_rate`. -/
def voicePush (encode : List ℤ → String) (source_rate : ℕ)
    (st : VoiceState) (data : List ℚ) (channels : ℕ) : VoiceState :=
  if st.enabled = false ∨ data = [] then st
  else
    let channels := max channels 1
    let mono := downmix data channels
    let residual := st.residual ++ mono
    let resampled := resample residual source_rate VOICE_SAMPLE_RATE
    let consumed :=
      if source_rate = VOICE_SAMPLE_RATE then resampled.length
      else (ratCeil ((resampled.length : ℚ) * ((source_rate : ℚ) / (VOICE_SAMPLE_RATE : ℚ)))).toNat
    let consumed := min consumed residual.length
    let frame_buffer := st.frame_buffer ++ resampled.map convert_sample
    let residual := residual.drop consumed
    let r := voiceExtract encode frame_buffer.length frame_buffer st.frames
    { st with residual := residual, frame_buffer := r.1, frames := r.2 }

/-- `VoiceStreamer::drain_frames` empties the queue (sequence numbering and
codec labelling do not touch the queue length). -/
def voiceDrain (st : VoiceState) : VoiceState × List String :=
  ({ st with frames := [] }, st.frames)

/-- The operations a client can interleave on one `VoiceStreamer`. -/
inductive VoiceOp where
  | push (data : List ℚ) (channels : ℕ) : VoiceOp
  | drain : VoiceOp
  | setEnabled (e : Bool) : VoiceOp

def voiceStep (encode : List ℤ → String) (source_rate : ℕ)
    (st : VoiceState) : VoiceOp → VoiceState
  | .push data channels => voicePush encode source_rate st data channels
  | .drain => (voiceDrain st).1
  | .setEnabled e => st.set_enabled e

def voiceRun (encode : List ℤ → String) (source_rate : ℕ)
    (ops : List VoiceOp) : VoiceState :=
  ops.foldl (voiceStep encode source_rate) VoiceState.new

/-! ## FFT analyzer (`src/audio/fft.rs`) — C1, C2, C6, C7

The external numeric kernels are collected in `Ops`:

* `fftMag samples` models the composition "multiply by the Hann window,
  run `rustfft`, take `Complex::norm` of the first `fft_size/2` bins"
  (`analyze` lines 368-385).  `rustfft` is an external crate; theorems
  needing a property of it (linearity at zero) state that property as a
  hypothesis.
* `sqrt` models `f32::sqrt` / `f64::sqrt`.
* `gauss offset` models `(-0.5 * (offset as f32 / 1.5)^2).exp()` from
  `_update_tempo_histogram`.
-/

structure Ops where
  fftMag : List ℚ → List ℚ
  sqrt : ℚ → ℚ
  gauss : ℤ → ℚ

/-- `AudioConfig` from `src/audio/mod.rs` (the fields the analyzer uses). -/
structure AudioConfig where
  sample_rate : ℕ
  fft_size : ℕ
  attack : ℚ
  release : ℚ
  beat_threshold : ℚ

/-- `AudioConfig::default()`. -/
def AudioConfig.default : AudioConfig :=
  { sample_rate := 48000, fft_size := 1024
    attack := 35/100, release := 8/100, beat_threshold := 13/10 }

/-- `AudioPreset` from `src/audio/fft.rs`. -/
structure AudioPreset where
  name : String
  attack : ℚ
  release : ℚ
  beat_threshold : ℚ
  bass_weight : ℚ
  band_sensitivity : Fin 5 → ℚ

/-- `get_presets()` — the six built-in presets, values verbatim. -/
def get_presets : List AudioPreset :=
  [ { name := "auto", attack := 35/100, release := 8/100, beat_threshold := 13/10
      bass_weight := 7/10, band_sensitivity := ![1, 1, 1, 1, 1] }
  , { name := "edm", attack := 7/10, release := 15/100, beat_threshold := 11/10
      bass_weight := 85/100, band_sensitivity := ![15/10, 8/10, 9/10, 12/10, 1] }
  , { name := "chill", attack := 25/100, release := 5/100, beat_threshold := 16/10
      bass_weight := 5/10, band_sensitivity := ![9/10, 1, 11/10, 12/10, 13/10] }
  , { name := "rock", attack := 5/10, release := 12/100, beat_threshold := 13/10
      bass_weight := 65/100, band_sensitivity := ![12/10, 1, 1, 9/10, 8/10] }
  , { name := "hiphop", attack := 6/10, release := 1/10, beat_threshold := 12/10
      bass_weight := 8/10, band_sensitivity := ![14/10, 9/10, 1, 11/10, 9/10] }
  , { name := "classical", attack := 2/10, release := 4/100, beat_threshold := 18/10
      bass_weight := 4/10, band_sensitivity := ![8/10, 1, 12/10, 13/10, 14/10] } ]

/-- Rust `str::to_lowercase` restricted to the ASCII names used here. -/
def strToLower (s : String) : String :=
  ⟨s.data.map Char.toLower⟩

/-- `get_preset(name)`: case-insensitive lookup. -/
def get_preset (name : String) : Option AudioPreset :=
  get_presets.find? fun p => p.name = strToLower name

/-- The mutable state of `FftAnalyzer` (the FFT planner, Hann window and
config copy are folded into `Ops.fftMag` / dropped as read-only). -/
structure FftState where
  fft_size : ℕ
  band_boundaries : Fin 5 → ℕ × ℕ
  smoothed_bands : Fin 5 → ℚ
  band_max : Fin 5 → ℚ
  attack : ℚ
  release : ℚ
  beat_threshold : ℚ
  bass_weight : ℚ
  band_sensitivity : Fin 5 → ℚ
  beat_history : List ℚ
  beat_cooldown : ℕ
  last_beat_times : List ℚ
  prev_bass : ℚ
  flux_history : List ℚ
  last_onset_time : Option ℚ
  tempo_histogram : List ℚ
  ioi_history : List ℚ
  estimated_bpm : ℚ
  tempo_confidence : ℚ
  last_output_beat_time : ℚ
  frame : ℕ

/-- `freq_to_bin` closure in `FftAnalyzer::new`:
`((freq * fft_size as f32) / sample_rate as f32).round() as usize`.
At the default config all quotients are far from half-integers, so the
exact rational rounding agrees with the `f32` computation. -/
def freq_to_bin (fft_size sample_rate : ℕ) (freq : ℚ) : ℕ :=
  (ratRound (freq * (fft_size : ℚ) / (sample_rate : ℚ))).toNat

/-- `FftAnalyzer::new(config)`. -/
def FftAnalyzer.new (config : AudioConfig) : FftState :=
  let f2b := freq_to_bin config.fft_size config.sample_rate
  { fft_size := config.fft_size
    band_boundaries :=
      ![(f2b 40, f2b 250), (f2b 250, f2b 500), (f2b 500, f2b 2000),
        (f2b 2000, f2b 6000), (f2b 6000, min (f2b 20000) (config.fft_size / 2))]
    smoothed_bands := fun _ => 0
    band_max := fun _ => 1/1000
    attack := config.attack
    release := config.release
    beat_threshold := config.beat_threshold
    bass_weight := 7/10
    band_sensitivity := fun _ => 1
    beat_history := []
    beat_cooldown := 0
    last_beat_times := []
    prev_bass := 0
    flux_history := []
    last_onset_time := none
    tempo_histogram := List.replicate 201 0
    ioi_history := []
    estimated_bpm := 120
    tempo_confidence := 0
    last_output_beat_time := 0
    frame := 0 }

/-- `FftAnalyzer::apply_preset`: overwrite the five tunable parameters,
nothing else. -/
def apply_preset (s : FftState) (p : AudioPreset) : FftState :=
  { s with attack := p.attack, release := p.release
           beat_threshold := p.beat_threshold, bass_weight := p.bass_weight
           band_sensitivity := p.band_sensitivity }

/-- `VecDeque::push_back` followed by `if len > cap { pop_front }`. -/
def pushCap (cap : ℕ) (l : List ℚ) (x : ℚ) : List ℚ :=
  let l := l ++ [x]
  if cap < l.length then l.tail else l

/-- Mean of a list, 0 when empty (matches the explicit emptiness guards in
`detect_beat`). -/
def listMean (l : List ℚ) : ℚ :=
  if l = [] then 0 else l.sum / (l.length : ℚ)

/-- Population variance of a list (as computed inline in `detect_beat` and
`_extract_tempo_from_histogram`). -/
def listVar (l : List ℚ) : ℚ :=
  if l = [] then 0
  else (l.map fun v => (v - listMean l) * (v - listMean l)).sum / (l.length : ℚ)

/-- Rust `Iterator::max_by` over `enumerate()`, which keeps the LAST maximum
on ties; the `(80, 0.0)` default is the code's `unwrap_or`. -/
def argmaxLast : List (ℕ × ℚ) → ℕ × ℚ
  | [] => (80, 0)
  | e :: es => es.foldl (fun acc x => if acc.2 ≤ x.2 then x else acc) e

/-- `FftAnalyzer::_extract_tempo_from_histogram`. -/
def extract_tempo_from_histogram (ops : Ops) (s : FftState) : FftState :=
  if s.ioi_history.length < 4 then s
  else
    let pk := argmaxLast s.tempo_histogram.enum
    let peak_idx := pk.1
    let peak_height := pk.2
    if peak_height < 1 then s
    else
      let start := peak_idx - 2
      let stop := min (peak_idx + 2) (s.tempo_histogram.length - 1)
      let idxs := (List.range (stop + 1 - start)).map (· + start)
      let weighted_sum := (idxs.map fun i => ((i + 40 : ℕ) : ℚ) * s.tempo_histogram.getD i 0).sum
      let total_weight := (idxs.map fun i => s.tempo_histogram.getD i 0).sum
      let refined_bpm :=
        if 0 < total_weight then weighted_sum / total_weight else ((peak_idx + 40 : ℕ) : ℚ)
      let mean_height := s.tempo_histogram.sum / (max s.tempo_histogram.length 1 : ℚ)
      let prominence := peak_height / (mean_height + 1/1000)
      let sample_conf := min ((s.ioi_history.length : ℚ) / 16) 1
      let recent := (s.ioi_history.reverse.take 8)
      let consistency_conf :=
        if 4 ≤ recent.length then
          let m := listMean recent
          let cv := min (ops.sqrt (listVar recent) / (m + 1/1000000)) 1
          ratClamp (1 - cv * 2) 0 1
        else 1/2
      let new_conf := ratClamp (prominence / 15 * sample_conf * consistency_conf) 0 1
      let bpm_delta := |refined_bpm - s.estimated_bpm|
      let accept := s.tempo_confidence < 3/10 ∨ bpm_delta < 12 ∨ s.tempo_confidence < new_conf
      if accept then
        let alpha : ℚ := if 65/100 < new_conf then 8/100 else 18/100
        { s with
          estimated_bpm := ratClamp ((1 - alpha) * s.estimated_bpm + alpha * refined_bpm) 60 200
          tempo_confidence := new_conf }
      else s

/-- `FftAnalyzer::_update_tempo_histogram`. -/
def update_tempo_histogram (ops : Ops) (s : FftState) (ioi : ℚ) : FftState :=
  let hist := s.tempo_histogram.map (· * (995/1000))
  let bpm := 60 / ioi
  let hist := [ (1:ℚ)/2, 1, 2 ].foldl
    (fun h multiplier =>
      let candidate := bpm * multiplier
      if candidate < 40 ∨ 240 < candidate then h
      else
        let base_idx : ℤ := ratRound candidate - 40
        (List.range 7).foldl
          (fun h o =>
            let offset : ℤ := (o : ℤ) - 3
            let idx := base_idx + offset
            if idx < 0 ∨ (h.length : ℤ) ≤ idx then h
            else
              let weight := ops.gauss offset
              let weight := if 80 ≤ candidate ∧ candidate ≤ 160 then weight * (14/10) else weight
              h.set idx.toNat (h.getD idx.toNat 0 + weight))
          h)
    hist
  extract_tempo_from_histogram ops { s with tempo_histogram := hist }

/-- `FftAnalyzer::_update_bpm_from_onset` (called with the PREVIOUS
`last_onset_time` still in place). -/
def update_bpm_from_onset (ops : Ops) (s : FftState) (current_time : ℚ) : FftState :=
  match s.last_onset_time with
  | none => s
  | some last =>
    let ioi := current_time - last
    if ioi < 1/4 ∨ 3/2 < ioi then s
    else
      let reject : Bool :=
        if 4 ≤ s.ioi_history.length ∧ 3/10 < s.tempo_confidence then
          let expected := 60 / max s.estimated_bpm 60
          let best := min |ioi / expected - 1|
            (min |ioi / (expected * 2) - 1| |ioi / (expected * (1/2)) - 1|)
          decide (1/5 < best)
        else false
      if reject then s
      else
        let s := { s with ioi_history :=
          (let l := s.ioi_history ++ [ioi]; if 32 < l.length then l.tail else l) }
        update_tempo_histogram ops s ioi

/-- `FftAnalyzer::detect_beat(bass)`; `now` is `start_time.elapsed()`.
Returns the next state, the beat flag and the beat intensity. -/
def detect_beat (ops : Ops) (s : FftState) (bass now : ℚ) : FftState × Bool × ℚ :=
  let s := { s with beat_history := pushCap 60 s.beat_history bass }
  let bass_flux := max (bass - s.prev_bass) 0
  let s := { s with prev_bass := bass
                    flux_history := pushCap 120 s.flux_history bass_flux }
  let s := { s with beat_cooldown := s.beat_cooldown - 1 }
  let avg := listMean s.beat_history
  let bass_threshold := max (avg * s.beat_threshold) (12/100)
  let flux_mean := listMean s.flux_history
  let flux_std := if s.flux_history = [] then 0 else ops.sqrt (listVar s.flux_history)
  let flux_threshold := max (flux_mean + flux_std * s.beat_threshold) (15/1000)
  let is_onset : Bool := decide (flux_threshold ≤ bass_flux ∧ bass_threshold < bass)
  let is_onset : Bool := is_onset && decide (¬(bass < avg * (9/10)))
  let can_fire : Bool :=
    match s.last_onset_time with
    | some last => decide (15/100 ≤ now - last)
    | none => true
  if s.beat_cooldown = 0 ∧ is_onset ∧ can_fire then
    let s := update_bpm_from_onset ops s now
    let s := { s with
      last_onset_time := some now
      last_output_beat_time := now
      beat_cooldown := 8
      last_beat_times :=
        (let l := s.last_beat_times ++ [now]; if 20 < l.length then l.tail else l) }
    let flux_score := min (bass_flux / max flux_threshold (1/1000)) (3/2)
    let bass_score := ratClamp ((bass - avg) / max avg (1/100)) 0 (3/2)
    let flux_w := 1 - s.bass_weight * (1/2)
    let intensity := min (flux_score * flux_w + bass_score * (1 - flux_w)) 1
    (s, true, intensity)
  else
    if 55/100 < s.tempo_confidence ∧ 0 < s.last_output_beat_time then
      let beat_period := 60 / max s.estimated_bpm 60
      let since_last := now - s.last_output_beat_time
      if beat_period * (8/10) < since_last then
        let phase := ratFract (since_last / beat_period)
        let near_boundary : Bool := decide (¬(1/10 ≤ phase ∧ phase ≤ 9/10))
        if near_boundary ∧ avg * (85/100) < bass ∧ flux_mean * (6/10) < bass_flux then
          ({ s with last_output_beat_time := now }, true, 55/100)
        else (s, false, 0)
      else (s, false, 0)
    else (s, false, 0)

/-- `FftAnalyzer::estimate_beat_phase`. -/
def estimate_beat_phase (s : FftState) (now : ℚ) : ℚ :=
  if s.last_output_beat_time ≤ 0 ∨ s.estimated_bpm ≤ 0 then 0
  else
    let beat_period := 60 / s.estimated_bpm
    if beat_period ≤ 0 then 0
    else ratFract (max (now - s.last_output_beat_time) 0 / beat_period)

/-- `AnalysisResult` from `src/audio/capture.rs` (`#[derive(Default)]`). -/
structure AnalysisResult where
  bands : Fin 5 → ℚ
  peak : ℚ
  is_beat : Bool
  beat_intensity : ℚ
  bpm : ℚ
  tempo_confidence : ℚ
  beat_phase : ℚ
  instant_bass : ℚ
  instant_kick : Bool

/-- `AnalysisResult::default()`. -/
def AnalysisResult.default : AnalysisResult :=
  { bands := fun _ => 0, peak := 0, is_beat := false, beat_intensity := 0
    bpm := 0, tempo_confidence := 0, beat_phase := 0
    instant_bass := 0, instant_kick := false }

/-- Sum of `magnitudes[start..end]` (`magnitudes[start..end].iter().sum()`). -/
def sliceSum (l : List ℚ) (start stop : ℕ) : ℚ :=
  ((l.drop start).take (stop - start)).sum

/-- Raw band extraction in `analyze`: average the magnitudes over the band's
bin range (DC bin excluded, range clipped to the spectrum length). -/
def rawBand (s : FftState) (magnitudes : List ℚ) (i : Fin 5) : ℚ :=
  if max (s.band_boundaries i).1 1 < min (s.band_boundaries i).2 magnitudes.length then
    sliceSum magnitudes (max (s.band_boundaries i).1 1)
        (min (s.band_boundaries i).2 magnitudes.length)
      / ((min (s.band_boundaries i).2 magnitudes.length - max (s.band_boundaries i).1 1 : ℕ) : ℚ)
  else 0

/-- Per-band AGC running-max update (fast attack, 0.997 decay, floor 0.001). -/
def bandMaxNext (s : FftState) (raw : Fin 5 → ℚ) (i : Fin 5) : ℚ :=
  if s.band_max i < raw i then raw i else max (s.band_max i * (997/1000)) (1/1000)

/-- AGC normalization and preset sensitivity scaling, each clamped to 1. -/
def normBand (s : FftState) (raw : Fin 5 → ℚ) (i : Fin 5) : ℚ :=
  min (min (raw i / bandMaxNext s raw i) 1 * s.band_sensitivity i) 1

/-- Attack/release envelope smoothing of the normalized bands. -/
def smoothBand (s : FftState) (raw2 : Fin 5 → ℚ) (i : Fin 5) : ℚ :=
  if s.smoothed_bands i < raw2 i then
    s.smoothed_bands i + (raw2 i - s.smoothed_bands i) * s.attack
  else
    s.smoothed_bands i + (raw2 i - s.smoothed_bands i) * s.release

/-- `FftAnalyzer::analyze(samples)`; `now` is the wall clock used by
`detect_beat` / `estimate_beat_phase`. -/
def analyze (ops : Ops) (s : FftState) (samples : List ℚ) (now : ℚ) :
    FftState × AnalysisResult :=
  let s := { s with frame := s.frame + 1 }
  if samples.length < s.fft_size then (s, AnalysisResult.default)
  else
    let magnitudes := ops.fftMag (samples.take s.fft_size)
    let raw0 := rawBand s magnitudes
    let raw2 := normBand s raw0
    let smoothed := smoothBand s raw2
    let s := { s with band_max := bandMaxNext s raw0, smoothed_bands := smoothed }
    let peak := (List.ofFn smoothed).foldl max 0
    let bass := smoothed 0
    let db := detect_beat ops s bass now
    let s := db.1
    let bpm := s.estimated_bpm
    let beat_phase := estimate_beat_phase s now
    (s, { bands := smoothed, peak := peak, is_beat := db.2.1
          beat_intensity := db.2.2, bpm := bpm
          tempo_confidence := s.tempo_confidence, beat_phase := beat_phase
          instant_bass := 0, instant_kick := false })

/-- Run the analyzer over a sequence of `(samples, now)` inputs from a given
state, collecting every returned result. -/
def analyzeRun (ops : Ops) (s : FftState) :
    List (List ℚ × ℚ) → FftState × List AnalysisResult
  | [] => (s, [])
  | (samples, now) :: rest =>
    let r := analyze ops s samples now
    let rec' := analyzeRun ops r.1 rest
    (rec'.1, r.2 :: rec'.2)

/-- The state invariant of the analyzer maintained by `analyze` from the
freshly constructed state: smoothed bands in [0,1], AGC maxima at least the
0.001 floor, nonnegative sensitivities, attack/release in [0,1], and the
estimated BPM inside the clamp range [60,200]. -/
def FftInv (s : FftState) : Prop :=
  (∀ i, 0 ≤ s.smoothed_bands i ∧ s.smoothed_bands i ≤ 1) ∧
  (∀ i, 1/1000 ≤ s.band_max i) ∧
  (∀ i, 0 ≤ s.band_sensitivity i) ∧
  (0 ≤ s.attack ∧ s.attack ≤ 1) ∧
  (0 ≤ s.release ∧ s.release ≤ 1) ∧
  (60 ≤ s.estimated_bpm ∧ s.estimated_bpm ≤ 200)

/-- Concrete kernel record for the C1 counterexample: `sqrt` is the exact
rational square root (the trace only evaluates it at 0, a perfect square,
where it agrees with `f32::sqrt`); `fftMag` and `gauss` are never evaluated
by `detect_beat` on this trace. -/
def opsC1 : Ops :=
  { fftMag := fun _ => [], sqrt := ratSqrt, gauss := fun _ => 0 }

/-- Concrete analyzer state for the C1 counterexample: a fresh default
analyzer that has seen ten silent frames of bass history and has acquired a
strong tempo lock (`tempo_confidence = 0.6 > 0.55`, `estimated_bpm = 120`),
as a steady beat input produces. -/
def c1State : FftState :=
  { FftAnalyzer.new AudioConfig.default with
    beat_history := List.replicate 10 0
    tempo_confidence := 6/10 }

/-- Run `detect_beat` over a sequence of `(bass, now)` inputs, collecting
each call's `(is_beat, intensity)` output. -/
def detectRun (ops : Ops) (s : FftState) : List (ℚ × ℚ) → FftState × List (Bool × ℚ)
  | [] => (s, [])
  | (bass, now) :: rest =>
    let d := detect_beat ops s bass now
    let r := detectRun ops d.1 rest
    (r.1, d.2 :: r.2)

/-! # Theorems -/

/-! ## Bridging lemmas for the computable floor/ceiling -/

theorem ratFloor_eq (q : ℚ) : ratFloor q = ⌊q⌋ := by
  rw [ratFloor, Rat.floor_def]

theorem ratCeil_eq (q : ℚ) : ratCeil q = ⌈q⌉ := by
  rw [ratCeil, ratFloor_eq, Int.floor_neg, neg_neg]

/-! ## C5 — reconnection backoff -/

/-- C5: starting from `reconnect_count = 0`, ten consecutive failing passes
produce the delay sequence 1, 2, 4, 8, 16, 30, 30, 30, 30, 30 seconds, each
delay being `min(2^(attempt-1), 30)`, and the pass after the 10th failed
attempt gives up with the unrecoverable-error message instead of retrying. -/
theorem C5_reconnect_backoff :
    reconnectTrace 0 10 =
      [.retryAfter 1, .retryAfter 2, .retryAfter 4, .retryAfter 8, .retryAfter 16,
       .retryAfter 30, .retryAfter 30, .retryAfter 30, .retryAfter 30, .retryAfter 30] ∧
    (∀ a < 10, (reconnectStep a).2 = .retryAfter (min (2 ^ a) 30)) ∧
    (reconnectStep 10).2 = .giveUp "Connection lost (max retries reached)" := by
  refine ⟨by decide, ?_, by decide⟩
  decide

/-! ## C9 — WebSocket scheme selection -/

/-- C9: `localhost`, `127.0.0.1`, `10.0.0.1`, `172.16.0.1`, `192.168.1.1`
select `ws://`; every IPv4 address outside 127/8, 10/8, 172.16/12,
192.168/16 and every hostname other than `localhost` selects `wss://`. -/
theorem C9_scheme_selection :
    connectScheme (.name "localhost") = "ws" ∧
    connectScheme (.ipv4 127 0 0 1) = "ws" ∧
    connectScheme (.ipv4 10 0 0 1) = "ws" ∧
    connectScheme (.ipv4 172 16 0 1) = "ws" ∧
    connectScheme (.ipv4 192 168 1 1) = "ws" ∧
    (∀ s : String, s ≠ "localhost" → connectScheme (.name s) = "wss") ∧
    (∀ a b c d : ℕ, a < 256 → b < 256 → c < 256 → d < 256 →
      ¬(a = 127 ∨ a = 10 ∨ (a = 172 ∧ 16 ≤ b ∧ b ≤ 31) ∨ (a = 192 ∧ b = 168)) →
      connectScheme (.ipv4 a b c d) = "wss") := by
  refine ⟨rfl, rfl, rfl, rfl, rfl, ?_, ?_⟩
  · intro s hs
    simp [connectScheme, is_local_host, hs]
  · intro a b c d _ _ _ _ h
    simp only [connectScheme, is_local_host]
    rw [if_neg]
    simp only [decide_eq_true_eq]
    exact h

/-- C9 witness: a public hostname and a public IPv4 address both select
`wss://`. -/
theorem C9_scheme_selection_witness :
    connectScheme (.name "example.com") = "wss" ∧
    connectScheme (.ipv4 8 8 8 8) = "wss" :=
  ⟨C9_scheme_selection.2.2.2.2.2.1 "example.com" (by decide),
   C9_scheme_selection.2.2.2.2.2.2 8 8 8 8 (by decide) (by decide) (by decide)
     (by decide) (by decide)⟩

/-! ## C4 — voice i16 conversion -/

/-- C4 counterexample: the claim says each resampled sample is converted via
`round(clamp(s, -1, 1) * 32767)`.  At `s = 1/2` (exactly representable in
`f32`, and `0.5 * 32767 = 16383.5` is exact in `f32`) `push_samples` appends
`16383` to the frame buffer — truncation toward zero — while the claimed
rounding gives `16384`. -/
theorem C4_trunc_not_round :
    (voicePush (fun _ => "") 48000 (VoiceState.new.set_enabled true)
        [1/2] 1).frame_buffer = [16383] ∧
    convert_sample_spec (1/2) = 16384 ∧
    convert_sample (1/2) ≠ convert_sample_spec (1/2) := by
  have h1 : convert_sample (1/2) = 16383 := by
    simp only [convert_sample, ratTrunc, ratClamp, ratFloor_eq, ratCeil_eq]
    norm_num
  have h2 : convert_sample_spec (1/2) = 16384 := by
    simp only [convert_sample_spec, ratRound, ratClamp, ratFloor_eq]
    norm_num
  refine ⟨?_, h2, by rw [h1, h2]; decide⟩
  simp only [voicePush, VoiceState.set_enabled, VoiceState.new, downmix, listChunks,
    resample, voiceExtract, voiceEnqueue, VOICE_FRAME_SAMPLES, VOICE_SAMPLE_RATE,
    MAX_QUEUED_FRAMES]
  norm_num [h1]

/-- C4 amended: every resampled sample is converted to i16 by TRUNCATION
toward zero of `clamp(s, -1, 1) * 32767` (Rust `as i16` semantics), a value
that always lies in `[-32767, 32767]` and differs from the spec's rounding
by at most one. -/
theorem C4_conversion_truncates (s : ℚ) :
    convert_sample s = ratTrunc (ratClamp s (-1) 1 * 32767) ∧
    |convert_sample_spec s - convert_sample s| ≤ 1 ∧
    -32767 ≤ convert_sample s ∧ convert_sample s ≤ 32767 := by
  have hcl : -1 ≤ ratClamp s (-1) 1 := le_max_left _ _
  have hcr : ratClamp s (-1) 1 ≤ 1 := max_le (by norm_num) (min_le_right _ _)
  set c : ℚ := ratClamp s (-1) 1 with hc
  have hl : (-32767 : ℚ) ≤ c * 32767 := by nlinarith
  have hr : c * 32767 ≤ 32767 := by nlinarith
  set q : ℚ := c * 32767 with hq
  refine ⟨rfl, ?_, ?_, ?_⟩
  · unfold convert_sample_spec convert_sample ratRound ratTrunc
    rw [← hc, ← hq, ratFloor_eq, ratFloor_eq, ratCeil_eq, ratFloor_eq]
    split
    · have a1 : ⌊q⌋ ≤ ⌊q + 1/2⌋ := Int.floor_le_floor (by linarith)
      have a2 : ⌊q + 1/2⌋ ≤ ⌊q⌋ + 1 := by
        have h3 := Int.floor_le_floor (α := ℚ) (show q + 1/2 ≤ q + 1 by norm_num)
        rwa [Int.floor_add_one] at h3
      rw [abs_le]
      omega
    · have b0 : ⌊-q⌋ = -⌈q⌉ := Int.floor_neg
      have b1 : ⌊-q⌋ ≤ ⌊-q + 1/2⌋ := Int.floor_le_floor (by linarith)
      have b2 : ⌊-q + 1/2⌋ ≤ ⌊-q⌋ + 1 := by
        have h3 := Int.floor_le_floor (α := ℚ) (show -q + 1/2 ≤ -q + 1 by norm_num)
        rwa [Int.floor_add_one] at h3
      rw [abs_le]
      omega
  · unfold convert_sample ratTrunc
    rw [← hc, ← hq, ratFloor_eq, ratCeil_eq]
    split
    · have h3 : (0 : ℤ) ≤ ⌊q⌋ := Int.floor_nonneg.mpr (by assumption)
      omega
    · have h3 : ⌈((-32767 : ℤ) : ℚ)⌉ ≤ ⌈q⌉ := Int.ceil_le_ceil (by exact_mod_cast hl)
      simpa using h3
  · unfold convert_sample ratTrunc
    rw [← hc, ← hq, ratFloor_eq, ratCeil_eq]
    split
    · have h3 : ⌊q⌋ ≤ ⌊((32767 : ℤ) : ℚ)⌋ := Int.floor_le_floor (by exact_mod_cast hr)
      simpa using h3
    · have h3 : ⌈q⌉ ≤ ⌈((32767 : ℤ) : ℚ)⌉ := Int.ceil_le_ceil (by exact_mod_cast hr)
      simpa using h3

/-! ## Ring buffer lemmas (C3, C10) -/

theorem mod_cases_two (a c : ℕ) (h : a < 2 * c) : a % c = if a < c then a else a - c := by
  split
  · exact Nat.mod_eq_of_lt (by assumption)
  · rw [Nat.mod_eq_sub_mod (by omega)]
    exact Nat.mod_eq_of_lt (by omega)

theorem getD_replicate_zero (c k : ℕ) : (List.replicate c (0 : ℚ)).getD k 0 = 0 := by
  rcases lt_or_ge k c with h | h
  · rw [List.getD_eq_getElem _ _ (by simpa using h)]
    simp
  · exact List.getD_eq_default _ _ (by simpa using h)

theorem getD_set_ne (l : List ℚ) (i k : ℕ) (x : ℚ) (h : i ≠ k) :
    (l.set i x).getD k 0 = l.getD k 0 := by
  rcases lt_or_ge k l.length with hk | hk
  · rw [List.getD_eq_getElem _ _ (by simpa using hk), List.getD_eq_getElem _ _ hk]
    exact List.getElem_set_ne h (by simpa using hk)
  · rw [List.getD_eq_default _ _ (by simpa using hk), List.getD_eq_default _ _ hk]

theorem buf_get_latest_length (b : AudioBuffer) (n : ℕ) :
    (b.get_latest n).length = min n b.capacity := by
  simp [AudioBuffer.get_latest]

theorem buf_readIdx_eq (b : AudioBuffer) (n i : ℕ) (hw : b.write_pos < b.capacity)
    (hn : n ≤ b.capacity) :
    b.readIdx n i = (b.write_pos + (b.capacity - n) + i) % b.capacity := by
  unfold AudioBuffer.readIdx AudioBuffer.startIdx
  split
  · have h1 : b.write_pos + (b.capacity - n) + i = b.write_pos - n + i + b.capacity := by
      omega
    rw [h1, Nat.add_mod_right]
  · have h1 : b.capacity - (n - b.write_pos) + i = b.write_pos + (b.capacity - n) + i := by
      omega
    rw [h1]

theorem buf_get_latest_drop (b : AudioBuffer) (n : ℕ) (hw : b.write_pos < b.capacity)
    (hn : n ≤ b.capacity) :
    b.get_latest n = (b.get_latest b.capacity).drop (b.capacity - n) := by
  apply List.ext_getElem
  · simp only [buf_get_latest_length, List.length_drop]
    omega
  · intro i h1 h2
    simp only [AudioBuffer.get_latest, min_self, min_eq_left hn, List.getElem_drop,
      List.getElem_map, List.getElem_range]
    congr 1
    rw [buf_readIdx_eq b n i hw hn, buf_readIdx_eq b b.capacity _ hw le_rfl]
    congr 1
    omega

theorem buf_new_window (c : ℕ) (hc : 0 < c) :
    (AudioBuffer.new c).get_latest c = List.replicate c 0 := by
  apply List.ext_getElem
  · simp [AudioBuffer.new, AudioBuffer.get_latest]
  · intro i h1 h2
    simp only [AudioBuffer.get_latest, AudioBuffer.new, min_self, List.getElem_map,
      List.getElem_range, List.getElem_replicate]
    exact getD_replicate_zero c _

theorem buf_push1_window (b : AudioBuffer) (x : ℚ) (hw : b.write_pos < b.capacity)
    (hlen : b.samples.length = b.capacity) :
    (b.push1 x).get_latest b.capacity = (b.get_latest b.capacity).drop 1 ++ [x] := by
  have hc : 0 < b.capacity := by omega
  have hcap : (b.push1 x).capacity = b.capacity := rfl
  have hw2 : (b.push1 x).write_pos < (b.push1 x).capacity := Nat.mod_lt _ hc
  apply List.ext_getElem
  · simp only [buf_get_latest_length, hcap, min_self, List.length_append,
      List.length_drop, List.length_singleton]
    omega
  · intro j h1 h2
    have hj : j < b.capacity := by
      simpa [buf_get_latest_length, hcap] using h1
    simp only [AudioBuffer.get_latest, hcap, min_self, List.getElem_map, List.getElem_range]
    rw [buf_readIdx_eq (b.push1 x) b.capacity j hw2 le_rfl]
    have hidx : ((b.push1 x).write_pos + ((b.push1 x).capacity - b.capacity) + j)
          % (b.push1 x).capacity
        = (b.write_pos + 1 + j) % b.capacity := by
      show ((b.write_pos + 1) % b.capacity + (b.capacity - b.capacity) + j) % b.capacity = _
      rw [Nat.sub_self, Nat.add_zero, Nat.mod_add_mod]
    rw [hidx]
    rcases Nat.lt_or_ge j (b.capacity - 1) with hjlt | hjge
    · -- inner element: comes from the old window shifted by one
      rw [List.getElem_append_left (by
        simp only [List.length_drop, List.length_map, List.length_range, buf_get_latest_length, min_self]; omega)]
      simp only [List.getElem_drop, AudioBuffer.get_latest, min_self, List.getElem_map,
        List.getElem_range]
      rw [buf_readIdx_eq b b.capacity _ hw le_rfl]
      have hidx2 : (b.write_pos + (b.capacity - b.capacity) + (1 + j)) % b.capacity
          = (b.write_pos + 1 + j) % b.capacity := by
        congr 1
        omega
      rw [hidx2]
      show (b.samples.set b.write_pos x).getD ((b.write_pos + 1 + j) % b.capacity) 0
          = b.samples.getD ((b.write_pos + 1 + j) % b.capacity) 0
      apply getD_set_ne
      rw [mod_cases_two _ _ (by omega)]
      split <;> omega
    · -- last element: the freshly written sample
      have hj1 : j = b.capacity - 1 := by omega
      rw [List.getElem_append_right (by
        simp only [List.length_drop, List.length_map, List.length_range, buf_get_latest_length, min_self]; omega)]
      simp only [List.length_drop, buf_get_latest_length, min_self]
      have hx : (b.write_pos + 1 + j) % b.capacity = b.write_pos := by
        rw [mod_cases_two _ _ (by omega)]
        split <;> omega
      rw [hx]
      have hset : (b.samples.set b.write_pos x).getD b.write_pos 0 = x := by
        rw [List.getD_eq_getElem _ _ (by simp only [List.length_set]; omega)]
        exact List.getElem_set_eq _
      simp only [AudioBuffer.push1] at hset ⊢
      rw [hset]
      have : j - (b.capacity - 1) = 0 := by omega
      simp [this]

theorem buf_pushed_invariant (c : ℕ) (hc : 0 < c) (H : List ℚ) :
    (H.foldl AudioBuffer.push1 (AudioBuffer.new c)).capacity = c ∧
    (H.foldl AudioBuffer.push1 (AudioBuffer.new c)).samples.length = c ∧
    (H.foldl AudioBuffer.push1 (AudioBuffer.new c)).write_pos = H.length % c ∧
    (H.foldl AudioBuffer.push1 (AudioBuffer.new c)).get_latest c
      = (List.replicate c 0 ++ H).drop H.length := by
  induction H using List.reverseRecOn with
  | nil =>
    refine ⟨rfl, by simp [AudioBuffer.new], by simp [AudioBuffer.new], ?_⟩
    simpa using buf_new_window c hc
  | append_singleton H x ih =>
    obtain ⟨hcap, hlen, hwp, hwin⟩ := ih
    rw [List.foldl_append]
    set b := H.foldl AudioBuffer.push1 (AudioBuffer.new c) with hb
    simp only [List.foldl_cons, List.foldl_nil]
    have hw : b.write_pos < b.capacity := by
      rw [hwp, hcap]
      exact Nat.mod_lt _ hc
    refine ⟨hcap, ?_, ?_, ?_⟩
    · simpa [AudioBuffer.push1] using hlen
    · show (b.write_pos + 1) % b.capacity = (H ++ [x]).length % c
      rw [hwp, hcap, Nat.mod_add_mod, List.length_append, List.length_singleton]
    · have hstep := buf_push1_window b x hw (by rw [hlen, hcap])
      rw [hcap] at hstep
      have key : List.drop (H.length + 1) (List.replicate c (0:ℚ) ++ (H ++ [x]))
          = List.drop (H.length + 1) (List.replicate c (0:ℚ) ++ H) ++ [x] := by
        rw [← List.append_assoc, List.drop_append_eq_append_drop]
        have hz : H.length + 1 - (List.replicate c (0:ℚ) ++ H).length = 0 := by
          simp only [List.length_append, List.length_replicate]
          omega
        rw [hz]
        simp
      calc (b.push1 x).get_latest c
          = List.drop 1 (b.get_latest c) ++ [x] := hstep
        _ = List.drop 1 (List.drop H.length (List.replicate c 0 ++ H)) ++ [x] := by
              rw [hwin]
        _ = List.drop (H.length + 1) (List.replicate c 0 ++ H) ++ [x] := by
              rw [List.drop_drop]
        _ = List.drop ((H ++ [x]).length) (List.replicate c 0 ++ (H ++ [x])) := by
              rw [← key, List.length_append, List.length_singleton]

theorem buf_pushAll_eq (b : AudioBuffer) (blocks : List (List ℚ)) :
    AudioBuffer.pushAll b blocks = blocks.flatten.foldl AudioBuffer.push1 b := by
  rw [AudioBuffer.pushAll, List.foldl_flatten]
  rfl

/-- C3 counterexample: with a capacity-2 buffer and the single push `[1]`,
`get_latest(2)` returns `[0, 1]` (one never-written zero plus the pushed
sample), while the last 2 elements of the concatenation of all pushed
samples are just `[1]` — the claimed equality fails when fewer than `n`
samples have ever been pushed. -/
theorem C3_counterexample :
    (AudioBuffer.push_samples (AudioBuffer.new 2) [1]).get_latest 2 = [0, 1] ∧
    lastN 2 [(1 : ℚ)] = [1] ∧
    (AudioBuffer.push_samples (AudioBuffer.new 2) [1]).get_latest 2 ≠ lastN 2 [(1 : ℚ)] := by
  have h1 : (AudioBuffer.push_samples (AudioBuffer.new 2) [1]).get_latest 2 = [0, 1] := by
    simp [AudioBuffer.push_samples, AudioBuffer.push1, AudioBuffer.new,
      AudioBuffer.get_latest, AudioBuffer.readIdx, AudioBuffer.startIdx,
      List.range_succ]
  have h2 : lastN 2 [(1 : ℚ)] = [1] := by simp [lastN]
  exact ⟨h1, h2, by rw [h1, h2]; simp⟩

/-- C3 amended: for a buffer of capacity `c > 0` and any `n ≤ c`,
`get_latest n` after any sequence of pushes returns the last `n` elements of
(`c` initial zeros ++ the concatenation of all pushed samples), in
chronological order; in particular, once at least `n` samples have been
pushed in total, this is exactly the last `n` pushed samples.  Both
operations are total functions of the state. -/
theorem C3_ring_buffer (c n : ℕ) (hc : 0 < c) (hn : n ≤ c) (blocks : List (List ℚ)) :
    (AudioBuffer.pushAll (AudioBuffer.new c) blocks).get_latest n
      = lastN n (List.replicate c 0 ++ blocks.flatten) ∧
    (n ≤ blocks.flatten.length →
      (AudioBuffer.pushAll (AudioBuffer.new c) blocks).get_latest n
        = lastN n blocks.flatten) := by
  obtain ⟨hcap, hlen, hwp, hwin⟩ := buf_pushed_invariant c hc blocks.flatten
  rw [buf_pushAll_eq]
  set b := blocks.flatten.foldl AudioBuffer.push1 (AudioBuffer.new c) with hb
  have hw : b.write_pos < b.capacity := by
    rw [hwp, hcap]
    exact Nat.mod_lt _ hc
  have hmain : b.get_latest n = lastN n (List.replicate c 0 ++ blocks.flatten) := by
    rw [buf_get_latest_drop b n hw (by omega), hcap, hwin, List.drop_drop, lastN]
    congr 1
    simp only [List.length_append, List.length_replicate]
    omega
  refine ⟨hmain, fun htot => ?_⟩
  rw [hmain, lastN, lastN, List.drop_append_eq_append_drop]
  have h1 : (List.replicate c (0:ℚ)).drop
      ((List.replicate c (0:ℚ) ++ blocks.flatten).length - n) = [] := by
    apply List.drop_eq_nil_of_le
    simp only [List.length_append, List.length_replicate]
    omega
  rw [h1, List.nil_append]
  congr 1
  simp only [List.length_append, List.length_replicate]
  omega

/-- C3 amended witness: capacity 2, pushes `[[1], [2, 3]]`, request `n = 2`
— the implementation returns the last two pushed samples `[2, 3]`. -/
theorem C3_ring_buffer_witness :
    (AudioBuffer.pushAll (AudioBuffer.new 2) [[1], [2, 3]]).get_latest 2
      = lastN 2 ([[1], [2, 3]] : List (List ℚ)).flatten :=
  (C3_ring_buffer 2 2 (by norm_num) le_rfl [[1], [2, 3]]).2 (by simp)

/-- C10: `get_latest` is total for every request size `n`: the request is
capped to the capacity, the returned vector has exactly `min n capacity`
elements, and (under the structural invariant that the sample store has
`capacity` elements) every index it reads is in bounds. -/
theorem C10_get_latest_total (b : AudioBuffer) (n : ℕ)
    (hlen : b.samples.length = b.capacity) (hc : 0 < b.capacity) :
    (b.get_latest n).length = min n b.capacity ∧
    b.get_latest n = b.get_latest (min n b.capacity) ∧
    ∀ i, b.readIdx (min n b.capacity) i < b.samples.length := by
  refine ⟨buf_get_latest_length b n, ?_, ?_⟩
  · simp only [AudioBuffer.get_latest, min_assoc, min_self]
  · intro i
    rw [hlen]
    exact Nat.mod_lt _ hc

/-- C10 witness: a capacity-3 buffer serving an oversized request `n = 7`
returns exactly `min 7 3 = 3` samples with all reads in bounds. -/
theorem C10_get_latest_total_witness :
    ((AudioBuffer.new 3).get_latest 7).length = min 7 3 ∧
    (AudioBuffer.new 3).get_latest 7 = (AudioBuffer.new 3).get_latest (min 7 3) ∧
    (AudioBuffer.new 3).readIdx (min 7 3) 0 < (AudioBuffer.new 3).samples.length := by
  have h := C10_get_latest_total (AudioBuffer.new 3) 7 (by simp [AudioBuffer.new])
    (by norm_num [AudioBuffer.new])
  exact ⟨h.1, h.2.1, h.2.2 0⟩

/-! ## Voice streamer queue bound (C8) -/

theorem voiceEnqueue_length_le (q : List String) (x : String)
    (h : q.length ≤ MAX_QUEUED_FRAMES) :
    (voiceEnqueue q x).length ≤ MAX_QUEUED_FRAMES := by
  unfold voiceEnqueue MAX_QUEUED_FRAMES at *
  split
  · simp only [List.length_append, List.length_tail, List.length_singleton]
    omega
  · simp only [List.length_append, List.length_singleton]
    omega

theorem voiceExtract_length_le (encode : List ℤ → String) (fuel : ℕ) (fb : List ℤ)
    (q : List String) (h : q.length ≤ MAX_QUEUED_FRAMES) :
    (voiceExtract encode fuel fb q).2.length ≤ MAX_QUEUED_FRAMES := by
  induction fuel generalizing fb q with
  | zero => exact h
  | succ fuel ih =>
    rw [voiceExtract]
    split
    · exact ih _ _ (voiceEnqueue_length_le q _ h)
    · exact h

theorem voicePush_length_le (encode : List ℤ → String) (source_rate : ℕ)
    (st : VoiceState) (data : List ℚ) (channels : ℕ)
    (h : st.frames.length ≤ MAX_QUEUED_FRAMES) :
    (voicePush encode source_rate st data channels).frames.length ≤ MAX_QUEUED_FRAMES := by
  unfold voicePush
  split
  · exact h
  · exact voiceExtract_length_le encode _ _ _ h

theorem voiceStep_length_le (encode : List ℤ → String) (source_rate : ℕ)
    (st : VoiceState) (op : VoiceOp) (h : st.frames.length ≤ MAX_QUEUED_FRAMES) :
    (voiceStep encode source_rate st op).frames.length ≤ MAX_QUEUED_FRAMES := by
  cases op with
  | push data channels => exact voicePush_length_le encode source_rate st data channels h
  | drain => simp [voiceStep, voiceDrain]
  | setEnabled e =>
    cases e with
    | true => simpa [voiceStep, VoiceState.set_enabled] using h
    | false => simp [voiceStep, VoiceState.set_enabled]

theorem voiceFold_length_le (encode : List ℤ → String) (source_rate : ℕ)
    (ops : List VoiceOp) (st : VoiceState) (h : st.frames.length ≤ MAX_QUEUED_FRAMES) :
    (ops.foldl (voiceStep encode source_rate) st).frames.length ≤ MAX_QUEUED_FRAMES := by
  induction ops generalizing st with
  | nil => exact h
  | cons op rest ih =>
    exact ih _ (voiceStep_length_le encode source_rate st op h)

/-- C8: for every interleaving of `push_samples`, `drain_frames` and
`set_enabled` calls on a fresh voice streamer (any source rate, any encoder),
the frame queue never holds more than `MAX_QUEUED_FRAMES = 50` entries; and
whenever a frame is enqueued while the queue already holds at least 50
entries, the oldest entry is dropped first. -/
theorem C8_voice_queue_bound (encode : List ℤ → String) (source_rate : ℕ)
    (ops : List VoiceOp) :
    (voiceRun encode source_rate ops).frames.length ≤ MAX_QUEUED_FRAMES ∧
    (∀ q x, MAX_QUEUED_FRAMES ≤ q.length → voiceEnqueue q x = q.tail ++ [x]) := by
  constructor
  · exact voiceFold_length_le encode source_rate ops VoiceState.new (by simp [VoiceState.new])
  · intro q x h
    unfold voiceEnqueue
    rw [if_pos h]

/-- C8 witness: pushing 52 one-frame batches (960 samples each at 48 kHz
mono, streaming enabled) leaves at most 50 queued frames, and a full
50-entry queue drops its head on enqueue. -/
theorem C8_voice_queue_bound_witness :
    (voiceRun (fun _ => "f") 48000
        (VoiceOp.setEnabled true ::
          List.replicate 52 (VoiceOp.push (List.replicate 960 (1/2)) 1))).frames.length
      ≤ MAX_QUEUED_FRAMES ∧
    voiceEnqueue (List.replicate 50 "a") "b" = (List.replicate 50 "a").tail ++ ["b"] :=
  ⟨(C8_voice_queue_bound (fun _ => "f") 48000 _).1,
   (C8_voice_queue_bound (fun _ => "f") 48000 []).2 (List.replicate 50 "a") "b"
     (by simp [MAX_QUEUED_FRAMES])⟩

/-! ## C7 — applying the `edm` preset -/

/-- C7: applying the `edm` preset to an analyzer in ANY state (hence also
after 60 processed frames) sets `attack = 0.70`, `release = 0.15`,
`beat_threshold = 1.10`, `bass_weight = 0.85`, `band_sensitivity[0] = 1.5`,
and leaves `smoothed_bands` and all other learning state untouched. -/
theorem C7_apply_edm_preset (s : FftState) (p : AudioPreset)
    (hp : get_preset "edm" = some p) :
    (apply_preset s p).attack = 7/10 ∧
    (apply_preset s p).release = 15/100 ∧
    (apply_preset s p).beat_threshold = 11/10 ∧
    (apply_preset s p).bass_weight = 85/100 ∧
    (apply_preset s p).band_sensitivity 0 = 15/10 ∧
    (apply_preset s p).smoothed_bands = s.smoothed_bands ∧
    (apply_preset s p).band_max = s.band_max ∧
    (apply_preset s p).beat_history = s.beat_history ∧
    (apply_preset s p).beat_cooldown = s.beat_cooldown ∧
    (apply_preset s p).last_beat_times = s.last_beat_times ∧
    (apply_preset s p).prev_bass = s.prev_bass ∧
    (apply_preset s p).flux_history = s.flux_history ∧
    (apply_preset s p).last_onset_time = s.last_onset_time ∧
    (apply_preset s p).tempo_histogram = s.tempo_histogram ∧
    (apply_preset s p).ioi_history = s.ioi_history ∧
    (apply_preset s p).estimated_bpm = s.estimated_bpm ∧
    (apply_preset s p).tempo_confidence = s.tempo_confidence ∧
    (apply_preset s p).last_output_beat_time = s.last_output_beat_time ∧
    (apply_preset s p).frame = s.frame := by
  have hedm : get_preset "edm" = some
      { name := "edm", attack := 7/10, release := 15/100, beat_threshold := 11/10
        bass_weight := 85/100, band_sensitivity := ![15/10, 8/10, 9/10, 12/10, 1] } := by
    rfl
  rw [hedm, Option.some_inj] at hp
  subst hp
  refine ⟨rfl, rfl, rfl, rfl, ?_, rfl, rfl, rfl, rfl, rfl, rfl, rfl, rfl, rfl, rfl,
    rfl, rfl, rfl, rfl⟩
  rfl

/-- C7 witness: the theorem applied to the freshly constructed analyzer and
the concrete `edm` preset. -/
theorem C7_apply_edm_preset_witness :
    (apply_preset (FftAnalyzer.new AudioConfig.default)
        { name := "edm", attack := 7/10, release := 15/100, beat_threshold := 11/10
          bass_weight := 85/100,
          band_sensitivity := ![15/10, 8/10, 9/10, 12/10, 1] }).attack = 7/10 ∧
    (apply_preset (FftAnalyzer.new AudioConfig.default)
        { name := "edm", attack := 7/10, release := 15/100, beat_threshold := 11/10
          bass_weight := 85/100,
          band_sensitivity := ![15/10, 8/10, 9/10, 12/10, 1] }).smoothed_bands
      = (FftAnalyzer.new AudioConfig.default).smoothed_bands :=
  ⟨(C7_apply_edm_preset (FftAnalyzer.new AudioConfig.default) _ rfl).1,
   (C7_apply_edm_preset (FftAnalyzer.new AudioConfig.default) _ rfl).2.2.2.2.2.1⟩

/-! ## Analyzer stage lemmas and C2 (silent frame) -/

theorem sliceSum_replicate_zero (n a b : ℕ) :
    sliceSum (List.replicate n (0 : ℚ)) a b = 0 := by
  simp [sliceSum, List.drop_replicate, List.take_replicate]

theorem rawBand_zero (s : FftState) (n : ℕ) (i : Fin 5) :
    rawBand s (List.replicate n 0) i = 0 := by
  unfold rawBand
  split
  · rw [sliceSum_replicate_zero, zero_div]
  · rfl

theorem normBand_of_zero (s : FftState) (raw : Fin 5 → ℚ) (i : Fin 5)
    (h : raw i = 0) : normBand s raw i = 0 := by
  rw [normBand, h, zero_div]
  norm_num

theorem smooth_silent (s : FftState) (n : ℕ) (i : Fin 5)
    (h0 : s.smoothed_bands i = 0) :
    smoothBand s (normBand s (rawBand s (List.replicate n 0))) i = 0 := by
  have hr : normBand s (rawBand s (List.replicate n 0)) i = 0 :=
    normBand_of_zero _ _ _ (rawBand_zero s n i)
  rw [smoothBand, hr, h0]
  norm_num

theorem smooth_silent_fun (s : FftState) (n : ℕ)
    (h0 : s.smoothed_bands = fun _ => 0) :
    smoothBand s (normBand s (rawBand s (List.replicate n 0))) = fun _ => 0 :=
  funext fun i => smooth_silent s n i (by rw [h0])

theorem onset_threshold_never_zero (X : ℚ) (P : Prop) [Decidable P] :
    decide (max X (15/1000) ≤ 0 ∧ P) = false := by
  simp only [decide_eq_false_iff_not]
  rintro ⟨h1, -⟩
  have h2 : (15/1000 : ℚ) ≤ 0 := le_trans (le_max_right _ _) h1
  norm_num at h2

/-- `detect_beat` on a non-rising bass with low tempo confidence: no beat,
zero intensity, only the histories / flux / cooldown fields change. -/
theorem detect_beat_quiet (ops : Ops) (s : FftState) (bass now : ℚ)
    (hflux : bass ≤ s.prev_bass) (hconf : s.tempo_confidence ≤ 55/100) :
    detect_beat ops s bass now =
      ({ s with beat_history := pushCap 60 s.beat_history bass
                prev_bass := bass
                flux_history := pushCap 120 s.flux_history (max (bass - s.prev_bass) 0)
                beat_cooldown := s.beat_cooldown - 1 }, false, 0) := by
  have hbf : max (bass - s.prev_bass) 0 = 0 := max_eq_right (by linarith)
  have hnc : ¬(55/100 < s.tempo_confidence) := not_lt.mpr hconf
  simp only [detect_beat, hbf, onset_threshold_never_zero, Bool.false_and,
    Bool.false_eq_true, false_and, and_false, if_false, hnc, if_neg, ite_false]

theorem foldl_max_five_zero :
    (List.ofFn (fun _ : Fin 5 => (0 : ℚ))).foldl max 0 = 0 := by
  simp [List.ofFn_succ]

set_option maxRecDepth 8000 in
/-- C2: feeding one all-zero vector of exactly FFT-size length (1024) to a
freshly constructed analyzer with the default config returns all-zero bands,
`peak = 0`, `is_beat = false`, `beat_intensity = 0`, `bpm = 120`,
`tempo_confidence = 0` and `beat_phase = 0`.  The only fact needed about the
external FFT kernel is that the magnitude spectrum of the zero signal is
zero. -/
theorem C2_silent_frame (ops : Ops) (now : ℚ)
    (hz : ops.fftMag (List.replicate 1024 0) = List.replicate 512 0) :
    (∀ i, (analyze ops (FftAnalyzer.new AudioConfig.default)
        (List.replicate 1024 0) now).2.bands i = 0) ∧
    (analyze ops (FftAnalyzer.new AudioConfig.default)
        (List.replicate 1024 0) now).2.peak = 0 ∧
    (analyze ops (FftAnalyzer.new AudioConfig.default)
        (List.replicate 1024 0) now).2.is_beat = false ∧
    (analyze ops (FftAnalyzer.new AudioConfig.default)
        (List.replicate 1024 0) now).2.beat_intensity = 0 ∧
    (analyze ops (FftAnalyzer.new AudioConfig.default)
        (List.replicate 1024 0) now).2.bpm = 120 ∧
    (analyze ops (FftAnalyzer.new AudioConfig.default)
        (List.replicate 1024 0) now).2.tempo_confidence = 0 ∧
    (analyze ops (FftAnalyzer.new AudioConfig.default)
        (List.replicate 1024 0) now).2.beat_phase = 0 := by
  have htake : (List.replicate 1024 (0:ℚ)).take 1024 = List.replicate 1024 0 := by
    simp [List.take_replicate]
  simp only [analyze, FftAnalyzer.new, AudioConfig.default, List.length_replicate,
    lt_self_iff_false, if_false, htake, hz]
  rw [smooth_silent_fun _ _ rfl]
  rw [detect_beat_quiet ops _ _ now (le_refl 0) (by show (0:ℚ) ≤ 55/100; norm_num)]
  refine ⟨fun i => rfl, ?_, rfl, rfl, rfl, rfl, ?_⟩
  · exact foldl_max_five_zero
  · unfold estimate_beat_phase
    rw [if_pos (Or.inl (le_refl 0))]

/-- C2 witness: the silent-frame theorem instantiated with a concrete kernel
record and `now = 1`. -/
theorem C2_silent_frame_witness :
    (analyze { fftMag := fun _ => List.replicate 512 0, sqrt := ratSqrt, gauss := fun _ => 0 }
        (FftAnalyzer.new AudioConfig.default) (List.replicate 1024 0) 1).2.bands 0 = 0 ∧
    (analyze { fftMag := fun _ => List.replicate 512 0, sqrt := ratSqrt, gauss := fun _ => 0 }
        (FftAnalyzer.new AudioConfig.default) (List.replicate 1024 0) 1).2.bands 4 = 0 ∧
    (analyze { fftMag := fun _ => List.replicate 512 0, sqrt := ratSqrt, gauss := fun _ => 0 }
        (FftAnalyzer.new AudioConfig.default) (List.replicate 1024 0) 1).2.peak = 0 ∧
    (analyze { fftMag := fun _ => List.replicate 512 0, sqrt := ratSqrt, gauss := fun _ => 0 }
        (FftAnalyzer.new AudioConfig.default) (List.replicate 1024 0) 1).2.is_beat = false ∧
    (analyze { fftMag := fun _ => List.replicate 512 0, sqrt := ratSqrt, gauss := fun _ => 0 }
        (FftAnalyzer.new AudioConfig.default) (List.replicate 1024 0) 1).2.beat_intensity = 0 ∧
    (analyze { fftMag := fun _ => List.replicate 512 0, sqrt := ratSqrt, gauss := fun _ => 0 }
        (FftAnalyzer.new AudioConfig.default) (List.replicate 1024 0) 1).2.bpm = 120 ∧
    (analyze { fftMag := fun _ => List.replicate 512 0, sqrt := ratSqrt, gauss := fun _ => 0 }
        (FftAnalyzer.new AudioConfig.default) (List.replicate 1024 0) 1).2.tempo_confidence
      = 0 ∧
    (analyze { fftMag := fun _ => List.replicate 512 0, sqrt := ratSqrt, gauss := fun _ => 0 }
        (FftAnalyzer.new AudioConfig.default) (List.replicate 1024 0) 1).2.beat_phase = 0 := by
  have h := C2_silent_frame
    { fftMag := fun _ => List.replicate 512 0, sqrt := ratSqrt, gauss := fun _ => 0 } 1 rfl
  exact ⟨h.1 0, h.1 4, h.2.1, h.2.2.1, h.2.2.2.1, h.2.2.2.2.1, h.2.2.2.2.2.1, h.2.2.2.2.2.2⟩

/-! ## C6 — result invariants -/

theorem ratClamp_mem (q lo hi : ℚ) (h : lo ≤ hi) :
    lo ≤ ratClamp q lo hi ∧ ratClamp q lo hi ≤ hi :=
  ⟨le_max_left _ _, max_le h (min_le_right _ _)⟩

theorem ratFract_mem (q : ℚ) (h : 0 ≤ q) : 0 ≤ ratFract q ∧ ratFract q < 1 := by
  rw [ratFract, ratTrunc, if_pos h, ratFloor_eq]
  have hfl := Int.floor_le q
  have hfu := Int.lt_floor_add_one q
  constructor <;> linarith

theorem extract_tempo_inv (ops : Ops) (s : FftState) (h : FftInv s) :
    FftInv (extract_tempo_from_histogram ops s) := by
  obtain ⟨h1, h2, h3, h4, h5, h6⟩ := h
  simp only [extract_tempo_from_histogram]
  split_ifs <;>
    first
      | exact ⟨h1, h2, h3, h4, h5, h6⟩
      | exact ⟨h1, h2, h3, h4, h5, ratClamp_mem _ 60 200 (by norm_num)⟩

set_option maxRecDepth 8000 in
theorem update_histogram_inv (ops : Ops) (s : FftState) (ioi : ℚ) (h : FftInv s) :
    FftInv (update_tempo_histogram ops s ioi) := by
  obtain ⟨h1, h2, h3, h4, h5, h6⟩ := h
  exact extract_tempo_inv ops _ ⟨h1, h2, h3, h4, h5, h6⟩

theorem update_bpm_inv (ops : Ops) (s : FftState) (t : ℚ) (h : FftInv s) :
    FftInv (update_bpm_from_onset ops s t) := by
  obtain ⟨h1, h2, h3, h4, h5, h6⟩ := h
  simp only [update_bpm_from_onset]
  rcases s.last_onset_time with _ | last
  · exact ⟨h1, h2, h3, h4, h5, h6⟩
  · simp only []
    split_ifs <;>
      first
        | exact ⟨h1, h2, h3, h4, h5, h6⟩
        | exact update_histogram_inv ops _ _ ⟨h1, h2, h3, h4, h5, h6⟩

theorem detect_beat_inv (ops : Ops) (s : FftState) (bass now : ℚ) (h : FftInv s) :
    FftInv (detect_beat ops s bass now).1 := by
  obtain ⟨h1, h2, h3, h4, h5, h6⟩ := h
  simp only [detect_beat]
  split_ifs <;>
    first
      | exact ⟨h1, h2, h3, h4, h5, h6⟩
      | exact update_bpm_inv ops _ now ⟨h1, h2, h3, h4, h5, h6⟩

theorem rawBand_nonneg (s : FftState) (mags : List ℚ)
    (hm : ∀ x ∈ mags, 0 ≤ x) (i : Fin 5) : 0 ≤ rawBand s mags i := by
  unfold rawBand
  split
  · apply div_nonneg
    · apply List.sum_nonneg
      intro x hx
      exact hm x (List.drop_subset _ _ (List.take_subset _ _ hx))
    · positivity
  · exact le_refl 0

theorem bandMaxNext_ge (s : FftState) (raw : Fin 5 → ℚ) (i : Fin 5)
    (h : 1/1000 ≤ s.band_max i) : 1/1000 ≤ bandMaxNext s raw i := by
  unfold bandMaxNext
  split
  · linarith
  · exact le_max_right _ _

theorem normBand_mem (s : FftState) (raw : Fin 5 → ℚ) (i : Fin 5)
    (hr : 0 ≤ raw i) (hb : 1/1000 ≤ s.band_max i) (hs : 0 ≤ s.band_sensitivity i) :
    0 ≤ normBand s raw i ∧ normBand s raw i ≤ 1 := by
  have hm : 0 < bandMaxNext s raw i :=
    lt_of_lt_of_le (by norm_num) (bandMaxNext_ge s raw i hb)
  refine ⟨?_, min_le_right _ _⟩
  apply le_min _ zero_le_one
  apply mul_nonneg _ hs
  exact le_min (div_nonneg hr hm.le) zero_le_one

theorem smoothBand_mem (s : FftState) (raw2 : Fin 5 → ℚ) (i : Fin 5)
    (h0 : 0 ≤ s.smoothed_bands i) (h1 : s.smoothed_bands i ≤ 1)
    (h2 : 0 ≤ raw2 i) (h3 : raw2 i ≤ 1)
    (ha0 : 0 ≤ s.attack) (ha1 : s.attack ≤ 1)
    (hr0 : 0 ≤ s.release) (hr1 : s.release ≤ 1) :
    0 ≤ smoothBand s raw2 i ∧ smoothBand s raw2 i ≤ 1 := by
  unfold smoothBand
  split
  · constructor <;> nlinarith
  · constructor <;> nlinarith

theorem estimate_beat_phase_mem (s : FftState) (now : ℚ) :
    0 ≤ estimate_beat_phase s now ∧ estimate_beat_phase s now < 1 := by
  simp only [estimate_beat_phase]
  split
  · norm_num
  · split
    · norm_num
    · apply ratFract_mem
      apply div_nonneg (le_max_right _ _)
      linarith [not_le.mp (by assumption : ¬(60 / s.estimated_bpm ≤ 0))]

theorem analyze_inv (ops : Ops) (hm : ∀ l x, x ∈ ops.fftMag l → 0 ≤ x)
    (s : FftState) (samples : List ℚ) (now : ℚ) (h : FftInv s) :
    FftInv (analyze ops s samples now).1 := by
  obtain ⟨h1, h2, h3, h4, h5, h6⟩ := h
  simp only [analyze]
  split
  · exact ⟨h1, h2, h3, h4, h5, h6⟩
  · apply detect_beat_inv
    refine ⟨?_, ?_, h3, h4, h5, h6⟩
    · intro i
      apply smoothBand_mem _ _ _ (h1 i).1 (h1 i).2 _ _ h4.1 h4.2 h5.1 h5.2
      · exact (normBand_mem _ _ _ (rawBand_nonneg _ _ (fun x hx => hm _ x hx) i)
          (h2 i) (h3 i)).1
      · exact (normBand_mem _ _ _ (rawBand_nonneg _ _ (fun x hx => hm _ x hx) i)
          (h2 i) (h3 i)).2
    · intro i
      exact bandMaxNext_ge _ _ _ (h2 i)

theorem analyze_result_bounds (ops : Ops) (hm : ∀ l x, x ∈ ops.fftMag l → 0 ≤ x)
    (s : FftState) (samples : List ℚ) (now : ℚ) (h : FftInv s) :
    (0 ≤ (analyze ops s samples now).2.beat_phase ∧
      (analyze ops s samples now).2.beat_phase < 1) ∧
    ((analyze ops s samples now).2.bpm = 0 ∨
      (60 ≤ (analyze ops s samples now).2.bpm ∧ (analyze ops s samples now).2.bpm ≤ 200)) ∧
    (∀ i, 0 ≤ (analyze ops s samples now).2.bands i ∧
      (analyze ops s samples now).2.bands i ≤ 1) := by
  obtain ⟨h1, h2, h3, h4, h5, h6⟩ := h
  simp only [analyze]
  split
  · refine ⟨by norm_num [AnalysisResult.default], Or.inl rfl, fun i => ?_⟩
    norm_num [AnalysisResult.default]
  · have hmid : FftInv ({ { s with frame := s.frame + 1 } with
        band_max := bandMaxNext { s with frame := s.frame + 1 }
          (rawBand { s with frame := s.frame + 1 }
            (ops.fftMag (samples.take s.fft_size)))
        smoothed_bands := smoothBand { s with frame := s.frame + 1 }
          (normBand { s with frame := s.frame + 1 }
            (rawBand { s with frame := s.frame + 1 }
              (ops.fftMag (samples.take s.fft_size)))) }) := by
      refine ⟨?_, ?_, h3, h4, h5, h6⟩
      · intro i
        apply smoothBand_mem _ _ _ (h1 i).1 (h1 i).2 _ _ h4.1 h4.2 h5.1 h5.2
        · exact (normBand_mem _ _ _ (rawBand_nonneg _ _ (fun x hx => hm _ x hx) i)
            (h2 i) (h3 i)).1
        · exact (normBand_mem _ _ _ (rawBand_nonneg _ _ (fun x hx => hm _ x hx) i)
            (h2 i) (h3 i)).2
      · intro i
        exact bandMaxNext_ge _ _ _ (h2 i)
    have hpost := detect_beat_inv ops _
      (smoothBand { s with frame := s.frame + 1 }
        (normBand { s with frame := s.frame + 1 }
          (rawBand { s with frame := s.frame + 1 }
            (ops.fftMag (samples.take s.fft_size)))) 0) now hmid
    refine ⟨estimate_beat_phase_mem _ now, Or.inr hpost.2.2.2.2.2, fun i => ?_⟩
    exact (hmid.1 i)

theorem fresh_analyzer_inv : FftInv (FftAnalyzer.new AudioConfig.default) := by
  refine ⟨fun i => ⟨le_refl 0, ?_⟩, fun i => le_refl (1/1000 : ℚ), fun i => ?_, ?_, ?_, ?_⟩
  · show (0:ℚ) ≤ 1
    norm_num
  · show (0:ℚ) ≤ 1
    norm_num
  · show (0:ℚ) ≤ 35/100 ∧ (35:ℚ)/100 ≤ 1
    norm_num
  · show (0:ℚ) ≤ 8/100 ∧ (8:ℚ)/100 ≤ 1
    norm_num
  · show (60:ℚ) ≤ 120 ∧ (120:ℚ) ≤ 200
    norm_num

/-- C6: along every sequence of `analyze` calls (arbitrary sample blocks and
wall-clock times) on a freshly constructed default analyzer, every returned
`AnalysisResult` satisfies `beat_phase ∈ [0, 1)`, `bpm = 0` or
`bpm ∈ [60, 200]`, and `bands[i] ∈ [0, 1]`.  The external FFT kernel is
assumed only to return nonnegative magnitudes (they are complex norms). -/
theorem C6_result_invariants (ops : Ops)
    (hm : ∀ l x, x ∈ ops.fftMag l → 0 ≤ x)
    (inputs : List (List ℚ × ℚ)) :
    ∀ r ∈ (analyzeRun ops (FftAnalyzer.new AudioConfig.default) inputs).2,
      (0 ≤ r.beat_phase ∧ r.beat_phase < 1) ∧
      (r.bpm = 0 ∨ (60 ≤ r.bpm ∧ r.bpm ≤ 200)) ∧
      (∀ i, 0 ≤ r.bands i ∧ r.bands i ≤ 1) := by
  suffices haux : ∀ (ins : List (List ℚ × ℚ)) (s : FftState), FftInv s →
      ∀ r ∈ (analyzeRun ops s ins).2,
        (0 ≤ r.beat_phase ∧ r.beat_phase < 1) ∧
        (r.bpm = 0 ∨ (60 ≤ r.bpm ∧ r.bpm ≤ 200)) ∧
        (∀ i, 0 ≤ r.bands i ∧ r.bands i ≤ 1) by
    exact haux inputs _ fresh_analyzer_inv
  intro ins
  induction ins with
  | nil =>
    intro s _ r hr
    simp [analyzeRun] at hr
  | cons p rest ih =>
    intro s hs r hr
    obtain ⟨samples, now⟩ := p
    simp only [analyzeRun] at hr
    rcases List.mem_cons.mp hr with hhead | htail
    · subst hhead
      exact analyze_result_bounds ops hm s samples now hs
    · exact ih (analyze ops s samples now).1 (analyze_inv ops hm s samples now hs) r htail

set_option maxRecDepth 8000 in
/-- C6 witness: the invariants instantiated at a concrete kernel, a
one-call input sequence, and that call's result. -/
theorem C6_result_invariants_witness :
    0 ≤ (analyze { fftMag := fun _ => List.replicate 512 0, sqrt := ratSqrt
                   gauss := fun _ => 0 }
        (FftAnalyzer.new AudioConfig.default) [] 0).2.beat_phase ∧
    (analyze { fftMag := fun _ => List.replicate 512 0, sqrt := ratSqrt, gauss := fun _ => 0 }
        (FftAnalyzer.new AudioConfig.default) [] 0).2.beat_phase < 1 ∧
    ((analyze { fftMag := fun _ => List.replicate 512 0, sqrt := ratSqrt, gauss := fun _ => 0 }
        (FftAnalyzer.new AudioConfig.default) [] 0).2.bpm = 0 ∨
      (60 ≤ (analyze { fftMag := fun _ => List.replicate 512 0, sqrt := ratSqrt
                       gauss := fun _ => 0 }
          (FftAnalyzer.new AudioConfig.default) [] 0).2.bpm ∧
        (analyze { fftMag := fun _ => List.replicate 512 0, sqrt := ratSqrt
                   gauss := fun _ => 0 }
          (FftAnalyzer.new AudioConfig.default) [] 0).2.bpm ≤ 200)) ∧
    0 ≤ (analyze { fftMag := fun _ => List.replicate 512 0, sqrt := ratSqrt
                   gauss := fun _ => 0 }
        (FftAnalyzer.new AudioConfig.default) [] 0).2.bands 0 ∧
    (analyze { fftMag := fun _ => List.replicate 512 0, sqrt := ratSqrt, gauss := fun _ => 0 }
        (FftAnalyzer.new AudioConfig.default) [] 0).2.bands 0 ≤ 1 := by
  have h := C6_result_invariants
    { fftMag := fun _ => List.replicate 512 0, sqrt := ratSqrt, gauss := fun _ => 0 }
    (fun l x hx => by
      rcases List.eq_of_mem_replicate hx with rfl
      exact le_refl 0)
    [([], 0)]
    (analyze { fftMag := fun _ => List.replicate 512 0, sqrt := ratSqrt, gauss := fun _ => 0 }
      (FftAnalyzer.new AudioConfig.default) [] 0).2
    (by simp [analyzeRun])
  exact ⟨h.1.1, h.1.2, h.2.1, (h.2.2 0).1, (h.2.2 0).2⟩

/-! ## C1 — beat cooldown -/

set_option maxRecDepth 8000 in
/-- C1 counterexample: the claim says that after `detect_beat` fires a beat
(setting the 8-frame cooldown), NO beat is returned during the next 7 calls,
for every bass sequence.  False: the phase-predicted beat path ignores the
cooldown.  From `c1State` (tempo confidence 0.6), a bass jump to 1 at time
1 s fires a real beat and sets the cooldown to 8; the very next call, with
bass 2 at time 1.47 s (phase 0.94 of the 0.5 s beat period), returns a beat
again — the synthetic phase-predicted beat with intensity 0.55. -/
theorem C1_counterexample :
    (detect_beat opsC1 c1State 1 1).2.1 = true ∧
    (detect_beat opsC1 c1State 1 1).1.beat_cooldown = 8 ∧
    (detect_beat opsC1 (detect_beat opsC1 c1State 1 1).1 2 (147/100)).2.1 = true ∧
    (detect_beat opsC1 (detect_beat opsC1 c1State 1 1).1 2 (147/100)).2.2 = 11/20 := by
  norm_num [detect_beat, update_bpm_from_onset, c1State, opsC1, FftAnalyzer.new,
    AudioConfig.default, pushCap, listMean, listVar, ratSqrt, ratFract, ratTrunc,
    ratClamp, ratFloor_eq, ratCeil_eq]
  have hcond : (if ([1, 1] : List ℚ) = [] then (0:ℚ) else 3/5) < 1 := by
    rw [if_neg (by simp)]
    norm_num
  rw [if_pos hcond]
  exact ⟨rfl, rfl⟩

/-- One `detect_beat` call while the cooldown is still at least 2 before the
decrement: the onset path cannot fire, so the cooldown just decrements,
`last_onset_time` is untouched, and any reported beat is the phase-predicted
one (intensity 0.55, possible only while tempo confidence exceeds 0.55). -/
theorem detect_beat_cooldown_step (ops : Ops) (s : FftState) (bass now : ℚ)
    (h : 2 ≤ s.beat_cooldown) :
    (detect_beat ops s bass now).1.beat_cooldown = s.beat_cooldown - 1 ∧
    (detect_beat ops s bass now).1.last_onset_time = s.last_onset_time ∧
    ((detect_beat ops s bass now).2.1 = true →
      (detect_beat ops s bass now).2.2 = 55/100 ∧ 55/100 < s.tempo_confidence) := by
  simp only [detect_beat]
  rw [if_neg (fun hc => absurd hc.1 (by omega))]
  split_ifs with h1 h2 h3
  · exact ⟨rfl, rfl, fun _ => ⟨rfl, h1.1⟩⟩
  · exact ⟨rfl, rfl, fun hb => absurd hb (by simp)⟩
  · exact ⟨rfl, rfl, fun hb => absurd hb (by simp)⟩
  · exact ⟨rfl, rfl, fun hb => absurd hb (by simp)⟩

/-- C1 amended: after a fired beat sets `beat_cooldown = 8`, during the next
7 calls (any bass values, any times) the onset-detection path never fires:
`last_onset_time` is unchanged and the cooldown only decrements; the only
beats that can be returned in that window are phase-predicted beats with
intensity exactly 0.55. -/
theorem C1_cooldown_blocks_onset_path (ops : Ops) (s : FftState)
    (calls : List (ℚ × ℚ)) (hcool : s.beat_cooldown = 8) (hlen : calls.length ≤ 7) :
    (detectRun ops s calls).1.last_onset_time = s.last_onset_time ∧
    (detectRun ops s calls).1.beat_cooldown = s.beat_cooldown - calls.length ∧
    (∀ out ∈ (detectRun ops s calls).2, out.1 = true → out.2 = 55/100) := by
  suffices aux : ∀ (cs : List (ℚ × ℚ)) (t : FftState), cs.length + 1 ≤ t.beat_cooldown →
      (detectRun ops t cs).1.last_onset_time = t.last_onset_time ∧
      (detectRun ops t cs).1.beat_cooldown = t.beat_cooldown - cs.length ∧
      (∀ out ∈ (detectRun ops t cs).2, out.1 = true → out.2 = 55/100) by
    exact aux calls s (by omega)
  intro cs
  induction cs with
  | nil =>
    intro t _
    exact ⟨rfl, by simp [detectRun], by simp [detectRun]⟩
  | cons p rest ih =>
    intro t ht
    obtain ⟨bass, now⟩ := p
    have hstep := detect_beat_cooldown_step ops t bass now (by
      simp only [List.length_cons] at ht
      omega)
    have hrec := ih (detect_beat ops t bass now).1 (by
      rw [hstep.1]
      simp only [List.length_cons] at ht
      omega)
    simp only [detectRun]
    refine ⟨?_, ?_, ?_⟩
    · rw [hrec.1, hstep.2.1]
    · rw [hrec.2.1, hstep.1, List.length_cons]
      omega
    · intro out hout
      rcases List.mem_cons.mp hout with hhead | htail
      · subst hhead
        intro hb
        exact (hstep.2.2 hb).1
      · exact hrec.2.2 out htail

/-- C1 amended witness: a fresh analyzer state with cooldown 8 and one quiet
call — `last_onset_time` is untouched and the cooldown drops to 7. -/
theorem C1_cooldown_blocks_onset_path_witness :
    (detectRun opsC1 { FftAnalyzer.new AudioConfig.default with beat_cooldown := 8 }
        [(0, 0)]).1.last_onset_time
      = ({ FftAnalyzer.new AudioConfig.default with
          beat_cooldown := 8 } : FftState).last_onset_time ∧
    (detectRun opsC1 { FftAnalyzer.new AudioConfig.default with beat_cooldown := 8 }
        [(0, 0)]).1.beat_cooldown
      = ({ FftAnalyzer.new AudioConfig.default with
          beat_cooldown := 8 } : FftState).beat_cooldown - 1 := by
  have h := C1_cooldown_blocks_onset_path opsC1
    { FftAnalyzer.new AudioConfig.default with beat_cooldown := 8 }
    [(0, 0)] rfl (by norm_num)
  exact ⟨h.1, h.2.1⟩
